import Mathlib

/-!
Shallow embedding of the core of the `bolt` backend
(`src/backend/services/rate_limiter.py`, `src/backend/services/agents/`)
together with theorems settling the specification claims.

Python strings are modelled as `List Char`; Python floats (timestamps,
retry delays, match scores) as `ℚ`; Python dicts with known key sets as
structures with `Option` fields (field present / absent); loosely keyed
string dicts as association lists.
-/

abbrev Str := List Char

/-- The ASCII whitespace characters stripped by Python `str.strip()`. -/
def isPySpace (c : Char) : Bool :=
  c == ' ' || c == '\t' || c == '\n' || c == '\r' || c == '\x0b' || c == '\x0c'

/-- Python `s.strip()`: drop leading and trailing whitespace. -/
def pyStrip (s : Str) : Str :=
  ((s.dropWhile isPySpace).reverse.dropWhile isPySpace).reverse

/-- Python `s.replace(CR LF, LF)`: left-to-right, non-overlapping. -/
def normCRLF : Str → Str
  | [] => []
  | [c] => [c]
  | c1 :: c2 :: rest =>
    if c1 = '\r' ∧ c2 = '\n' then '\n' :: normCRLF rest
    else c1 :: normCRLF (c2 :: rest)

/-- Whether the two-character sequence CR LF occurs in `s`. -/
def hasCRLF : Str → Bool
  | [] => false
  | [_] => false
  | c1 :: c2 :: rest => (c1 = '\r' && c2 = '\n') || hasCRLF (c2 :: rest)

/-- Index of the first occurrence of `needle` in `hay`
(Python `hay.find(needle)`, with `none` for not found; the membership
test `needle in hay` is `(firstMatchIdx needle hay).isSome`). -/
def firstMatchIdx (needle : Str) (hay : Str) : Option Nat :=
  if needle.isPrefixOf hay then some 0
  else
    match hay with
    | [] => none
    | _ :: t => (firstMatchIdx needle t).map (· + 1)

/-- Python substring test `needle in hay`. -/
def containsSub (needle hay : Str) : Bool :=
  (firstMatchIdx needle hay).isSome

/-- Number of start positions at which `needle` occurs in `hay`. -/
def countSubOcc (needle hay : Str) : Nat :=
  (List.range (hay.length + 1)).countP (fun j => needle.isPrefixOf (hay.drop j))

/-- Python `s.split(LF)`: for example the empty string gives one empty
part, and a trailing LF gives a trailing empty part. -/
def splitNL : Str → List Str
  | [] => [[]]
  | c :: rest =>
    if c = '\n' then [] :: splitNL rest
    else
      match splitNL rest with
      | [] => [[c]]
      | l :: ls => (c :: l) :: ls

/-- Python `LF.join(lines)`. -/
def joinNL (lines : List Str) : Str :=
  List.intercalate ['\n'] lines

/-! Patch Engine: `EditAgent._apply_diff` and `_apply_multiple_diffs`. -/

/-- One search/replace instruction (via `change.get(..., '')`, a missing
key reads as the empty string). -/
structure Change where
  search : Str
  replace : Str
deriving DecidableEq, Repr

/-- The list comprehension building the fuzzy search lines: strip each
line of the search block and keep the non-blank ones. -/
def fuzzySearchLines (search_block : Str) : List Str :=
  ((splitNL search_block).map pyStrip).filter (fun l => !l.isEmpty)

/-- Score of the window of `original_lines` starting at `i`: the
fraction of window lines whose stripped form equals the corresponding
(already stripped) search line; `0` when there are no search lines.
The Python source computes this fraction in floating point; it is exact
on all values compared by the claims settled here. -/
def windowScore (original_lines search_lines : List Str) (i : Nat) : ℚ :=
  let window := (original_lines.drop i).take search_lines.length
  let nMatch := ((window.map pyStrip).zip search_lines).countP (fun p => decide (p.1 = p.2))
  if search_lines.length = 0 then 0 else (nMatch : ℚ) / (search_lines.length : ℚ)

/-- The loop body tracking `best_match_start` and `best_match_score`
(update on strictly greater score). -/
def bestStep (original_lines search_lines : List Str) (acc : Int × ℚ) (i : Nat) :
    Int × ℚ :=
  if acc.2 < windowScore original_lines search_lines i then
    ((i : Int), windowScore original_lines search_lines i)
  else acc

/-- The best-window scan: iterate `i` over
`range(len(original_lines) - len(search_lines) + 1)` (empty when the
bound is not positive), starting from `(-1, 0)`. -/
def bestWindow (original_lines search_lines : List Str) : Int × ℚ :=
  let bound : Int := (original_lines.length : Int) - (search_lines.length : Int) + 1
  (List.range bound.toNat).foldl (bestStep original_lines search_lines) (-1, 0)

/-- Model of `EditAgent._apply_diff(original_content, search_block,
replace_block)`: empty-original and empty-search shortcuts, CRLF
normalization, exact first-occurrence replacement, then the fuzzy
whole-line fallback spliced at the best window when its score reaches
four fifths. -/
def apply_diff (original_content search_block replace_block : Str) : Str × Bool :=
  if original_content = [] then (replace_block, true)
  else if search_block = [] then (replace_block ++ original_content, true)
  else
    let original := normCRLF original_content
    let search := normCRLF search_block
    let repl := normCRLF replace_block
    match firstMatchIdx search original with
    | some i =>
      (original.take i ++ repl ++ original.drop (i + search.length), true)
    | none =>
      let original_lines := splitNL original
      let search_lines := fuzzySearchLines search
      let best := bestWindow original_lines search_lines
      if (4 : ℚ)/5 ≤ best.2 ∧ 0 ≤ best.1 then
        (joinNL
          (original_lines.take best.1.toNat ++ splitNL repl ++
            original_lines.drop (best.1.toNat + search_lines.length)), true)
      else (original, false)

/-- The loop body of `_apply_multiple_diffs`: on success thread the new
content, on failure keep the content and append the change to `failed`. -/
def diffStep (acc : Str × List Change) (change : Change) : Str × List Change :=
  let r := apply_diff acc.1 change.search change.replace
  if r.2 then (r.1, acc.2) else (acc.1, acc.2 ++ [change])

/-- Model of `EditAgent._apply_multiple_diffs(original_content, changes)`. -/
def apply_multiple_diffs (original_content : Str) (changes : List Change) :
    Str × List Change :=
  changes.foldl diffStep (original_content, [])

/-- Sequential-threading reference form of `applyAll`, written after the
words of the specification: apply the changes in order, feeding the
result of each successful change into the next, and collect the failed
changes in input order.  Compared against `apply_multiple_diffs`. -/
def applyAllSpec : Str → List Change → Str × List Change
  | content, [] => (content, [])
  | content, c :: cs =>
    let r := apply_diff content c.search c.replace
    if r.2 then applyAllSpec r.1 cs
    else
      let rest := applyAllSpec content cs
      (rest.1, c :: rest.2)

/-! Edit Stage: `EditAgent.update_file`.

The LLM call and JSON parsing are effectful; the embedding takes the
already-parsed changes list (the value read from the parsed response
when generation and parsing raised no exception) and the caller-supplied
current content, and models the dict the method returns. -/

/-- The dict returned by `EditAgent.update_file` (fields absent from the
returned dict are `none`). -/
structure UpdateResult where
  success : Bool
  error : Option Str
  content : Option Str
  changes_applied : Option Nat
  changes_failed : Option Nat
deriving DecidableEq, Repr

/-- Model of `EditAgent.update_file`, given the parsed changes list. -/
def update_file (current_content : Str) (changes : List Change) : UpdateResult :=
  if changes = [] then
    { success := false, error := some "No changes provided".toList,
      content := none, changes_applied := none, changes_failed := none }
  else
    let r := apply_multiple_diffs current_content changes
    { success := true, error := none, content := some r.1,
      changes_applied := some (changes.length - r.2.length),
      changes_failed := some r.2.length }

/-! Key Pool and Generation Client: `rate_limiter.py`. -/

/-- Configuration record for a single API key (`APIKeyConfig`); the
credential string is modelled as an opaque `Nat` identifier, timestamps
as `ℚ`. -/
structure APIKeyConfig where
  key : Nat
  requests_made : Nat := 0
  last_request_time : ℚ := 0
  is_rate_limited : Bool := false
  rate_limit_reset_time : ℚ := 0
deriving DecidableEq, Repr

def dfltKey : APIKeyConfig := ⟨0, 0, 0, false, 0⟩

/-- The mutable pool state of `RateLimiter`: the key list and the cursor. -/
structure RateLimiterState where
  api_keys : List APIKeyConfig
  current_key_index : Nat
deriving DecidableEq, Repr

def max_retries : Nat := 3

def base_delay : ℚ := 1

def max_delay : ℚ := 60

/-- The scan loop inside `get_current_key` (one iteration per pool
entry): check the key under the cursor, clear an expired cooldown and
return that key, return a non-limited key, else advance the cursor.
Here `time.time()` is the explicit `now`; the loop either returns
`some (key, keys, cursor)` or falls through (`none`) after `fuel`
iterations. -/
def getKeyLoop (now : ℚ) : Nat → List APIKeyConfig → Nat →
    Option (Nat × List APIKeyConfig × Nat)
  | 0, _, _ => none
  | fuel+1, keys, idx =>
    let kc := keys.getD idx dfltKey
    if kc.is_rate_limited then
      if kc.rate_limit_reset_time ≤ now then
        some (kc.key, keys.set idx { kc with is_rate_limited := false }, idx)
      else getKeyLoop now fuel keys ((idx + 1) % keys.length)
    else some (kc.key, keys, idx)

/-- Minimum `rate_limit_reset_time` over the pool (the pool is non-empty
wherever this is used; the Python generator min raises on an empty one). -/
def minReset : List APIKeyConfig → ℚ
  | [] => 0
  | [k] => k.rate_limit_reset_time
  | k :: k2 :: rest => min k.rate_limit_reset_time (minReset (k2 :: rest))

/-- Index of the first key whose reset time is minimal.  Python computes
`min(self.api_keys, key=...)` followed by `.index(...)`: `min` picks the
first minimum and `.index` finds the first structurally equal record,
which is that same first minimum (any earlier equal record would itself
have a minimal reset time). -/
def soonestIdx (keys : List APIKeyConfig) : Nat :=
  keys.findIdx (fun k => decide (k.rate_limit_reset_time = minReset keys))

/-- Model of `RateLimiter.get_current_key`; `none` models the
`ValueError` raised on an empty pool.  Returns the chosen credential and
the updated state. -/
def get_current_key (now : ℚ) (st : RateLimiterState) :
    Option (Nat × RateLimiterState) :=
  if st.api_keys = [] then none
  else
    match getKeyLoop now st.api_keys.length st.api_keys st.current_key_index with
    | some (k, keys, idx) => some (k, ⟨keys, idx⟩)
    | none =>
      let j := soonestIdx st.api_keys
      some ((st.api_keys.getD j dfltKey).key, ⟨st.api_keys, j⟩)

/-- Model of `RateLimiter.mark_rate_limited`: flag the key under the
cursor with reset time `now + retry_after`, then advance the cursor. -/
def mark_rate_limited (now retry_after : ℚ) (st : RateLimiterState) :
    RateLimiterState :=
  let idx := st.current_key_index
  let kc := st.api_keys.getD idx dfltKey
  { api_keys := st.api_keys.set idx
      { kc with is_rate_limited := true,
                rate_limit_reset_time := now + retry_after },
    current_key_index := (idx + 1) % st.api_keys.length }

/-- Python `s.lower()` (ASCII suffices for the classifier literals). -/
def lowerStr (s : Str) : Str := s.map Char.toLower

/-- The rate-limit classifier in `execute_with_retry`: the error text
contains "429", or its lowercasing contains "quota" or "rate". -/
def isRateLimitError (e : Str) : Bool :=
  containsSub "429".toList e || containsSub "quota".toList (lowerStr e) ||
    containsSub "rate".toList (lowerStr e)

/-- Model of `RateLimiter.calculate_backoff`. -/
def calculate_backoff (attempt : Nat) : ℚ :=
  min (base_delay * 2 ^ attempt) max_delay

/-- Outcome of one Model Oracle invocation: the returned text (as an
opaque `Nat`) or the message string of the raised exception. -/
inductive CallResult where
  | ok (v : Nat)
  | fail (e : Str)
deriving DecidableEq, Repr

/-- State threaded through `execute_with_retry`: the pool, the current
time (advanced by the modelled sleeps), and how many oracle calls were
made so far. -/
structure GenState where
  rl : RateLimiterState
  now : ℚ
  calls : Nat
deriving DecidableEq, Repr

/-- Result of `execute_with_retry`: a returned value, or a raised error
(`none` models the unreachable all-retries-exhausted default message). -/
inductive RetryOutcome where
  | ok (v : Nat) (st : GenState)
  | raised (e : Option Str) (st : GenState)
deriving DecidableEq, Repr

/-- The body of `execute_with_retry`: a bounded loop over the attempt
budget, with `remaining + attempt = max_retries`.  `oracle n` is the
outcome of the n-th call to `func`; `parseDelay` abstracts
`parse_retry_delay` (a wrapper over the external regex engine — no
claim depends on its value).  A rate-limited failure marks the current
key; if any key is still unflagged the loop continues at once, else it
sleeps until the soonest reset (at least 1s) and re-arms expired keys.
A generic failure sleeps the exponential backoff.  Both paths continue
the same bounded loop. -/
def retryGo (parseDelay : Str → ℚ) (oracle : Nat → CallResult) :
    Nat → Nat → Option Str → GenState → RetryOutcome
  | 0, _, last, st => .raised last st
  | remaining+1, attempt, _lastErr, st =>
    match oracle st.calls with
    | .ok v => .ok v { st with calls := st.calls + 1 }
    | .fail e =>
      let st1 : GenState := { st with calls := st.calls + 1 }
      if isRateLimitError e then
        let rl1 := mark_rate_limited st1.now (parseDelay e) st1.rl
        if rl1.api_keys.any (fun k => !k.is_rate_limited) then
          retryGo parseDelay oracle remaining (attempt + 1) (some e)
            { st1 with rl := rl1 }
        else
          let min_wait := max 1 (minReset rl1.api_keys - st1.now)
          let now2 := st1.now + min_wait
          let rearm := fun (k : APIKeyConfig) =>
            if k.rate_limit_reset_time ≤ now2 then
              { k with is_rate_limited := false } else k
          let rl2 : RateLimiterState := { rl1 with api_keys := rl1.api_keys.map rearm }
          retryGo parseDelay oracle remaining (attempt + 1) (some e)
            { rl := rl2, now := now2, calls := st1.calls }
      else
        retryGo parseDelay oracle remaining (attempt + 1) (some e)
          { st1 with now := st1.now + calculate_backoff attempt }

/-- Model of `RateLimiter.execute_with_retry`. -/
def execute_with_retry (parseDelay : Str → ℚ) (oracle : Nat → CallResult)
    (st : GenState) : RetryOutcome :=
  retryGo parseDelay oracle max_retries 0 none st

/-- Error value of a raised `RetryOutcome`. -/
def retryRaisedErr : RetryOutcome → Option (Option Str)
  | .raised e _ => some e
  | .ok _ _ => none

/-- Number of oracle calls made by the time the outcome was produced. -/
def retryCalls : RetryOutcome → Nat
  | .ok _ st => st.calls
  | .raised _ st => st.calls

/-! Response Parser: `BaseAgent._parse_json`.

The standard-library decoder `json.loads` is abstracted as the
parameter `loads : Str → Option α` (`none` models a raised decode
error). -/

/-- Python `s.split(sep)` for a non-empty `sep` (fuelled recursion;
fuel `s.length + 1` always suffices). -/
def splitOnSubF (sep : Str) : Nat → Str → List Str
  | 0, s => [s]
  | fuel+1, s =>
    match firstMatchIdx sep s with
    | none => [s]
    | some i => s.take i :: splitOnSubF sep fuel (s.drop (i + sep.length))

def splitOnSub (sep s : Str) : List Str := splitOnSubF sep (s.length + 1) s

/-- Opening brace character (written via its code point). -/
def lbrace : Char := Char.ofNat 123

/-- Closing brace character (written via its code point). -/
def rbrace : Char := Char.ofNat 125

def firstIdxOf (c : Char) (s : Str) : Option Nat := s.findIdx? (· == c)

def lastIdxOf (c : Char) (s : Str) : Option Nat :=
  (s.reverse.findIdx? (· == c)).map (fun i => s.length - 1 - i)

/-- The greedy regex match of the first-open-brace…last-close-brace span
(DOTALL): it exists iff the first open brace precedes the last close
brace. -/
def spanBrace (s : Str) : Option Str :=
  match firstIdxOf lbrace s, lastIdxOf rbrace s with
  | some p, some q => if p < q then some ((s.drop p).take (q - p + 1)) else none
  | _, _ => none

/-- The fence-stripping prelude of `_parse_json`: strip, cut out the
fenced block (after a json fence, else after a plain fence), strip
again. -/
def cleanFences (text : Str) : Str :=
  let t := pyStrip text
  let t :=
    if containsSub "```json".toList t then
      (splitOnSub "```".toList ((splitOnSub "```json".toList t).getD 1 [])).getD 0 []
    else if containsSub "```".toList t then
      (splitOnSub "```".toList ((splitOnSub "```".toList t).getD 1 [])).getD 0 []
    else t
  pyStrip t

/-- Result of `_parse_json`: a decoded value, or the sentinel dict with
its error message and raw-preview fields. -/
inductive ParseOut (α : Type) where
  | parsed (v : α)
  | sentinel (error : Str) (raw : Str)
deriving DecidableEq

/-- Model of `BaseAgent._parse_json`. -/
def parse_json {α : Type} (loads : Str → Option α) (text : Str) : ParseOut α :=
  let t := cleanFences text
  match loads t with
  | some v => .parsed v
  | none =>
    match spanBrace t with
    | some span =>
      match loads span with
      | some v => .parsed v
      | none => .sentinel "Failed to parse JSON".toList (t.take 500)
    | none => .sentinel "Failed to parse JSON".toList (t.take 500)

/-! Orchestrator: `orchestrator.py`. -/

/-- Lookup in a Python string-keyed dict (association list). -/
def dictGet (d : List (Str × Str)) (k : Str) : Option Str :=
  (d.find? (fun p => decide (p.1 = k))).map (·.2)

/-- Python dict assignment: update the entry in place when the key is
present, else append a new entry. -/
def dictSet : List (Str × Str) → Str → Str → List (Str × Str)
  | [], k, v => [(k, v)]
  | p :: d, k, v => if p.1 = k then (k, v) :: d else p :: dictSet d k v

/-- The stage-result dict fields that `execute_task` inspects: the
success flag, and the summary and content fields when present. -/
structure StageResult where
  success : Bool
  summary : Option Str
  content : Option Str
deriving DecidableEq, Repr

/-- The mutable orchestrator state: the context ledger, the recent-files
map, and the current plan (a parsed dict, `none` before the first
planning call). -/
structure OrchState where
  context : List (Str × Str)
  recent_files : List (Str × Str)
  current_plan : Option (List (Str × Str))
deriving DecidableEq, Repr

/-- The state-update suffix of `Orchestrator.execute_task` (the earlier
steps are LLM calls yielding `result`, taken as input here): on success,
append a context entry when a summary is present and write the
recent-files entry when content is present; otherwise leave the state
untouched. -/
def execute_task_update (file_path : Str) (result : StageResult)
    (st : OrchState) : OrchState :=
  if result.success then
    let st1 :=
      match result.summary with
      | some s => { st with context := st.context ++ [(file_path, s)] }
      | none => st
    match result.content with
    | some c => { st1 with recent_files := dictSet st1.recent_files file_path c }
    | none => st1
  else st

/-- The parsed error-analysis fields that `handle_error` inspects. -/
structure ErrorAnalysis where
  fix_type : Option Str
  changes : List Change
deriving DecidableEq, Repr

/-- The dict returned by `Orchestrator.handle_error`. -/
structure FixResult where
  success : Bool
  content : Option Str
  changes_applied : Option Nat
deriving DecidableEq, Repr

/-- Model of `Orchestrator.handle_error`, given the parsed analysis:
apply the diff fix to the caller-supplied content and return the result
dict; the orchestrator state is returned unchanged (the method never
writes to the context ledger or the recent-files map). -/
def handle_error (st : OrchState) (current_content : Str)
    (analysis : ErrorAnalysis) : FixResult × OrchState :=
  if analysis.fix_type = some "diff".toList then
    let r := apply_multiple_diffs current_content analysis.changes
    ({ success := true, content := some r.1,
       changes_applied := some (analysis.changes.length - r.2.length) }, st)
  else ({ success := false, content := none, changes_applied := none }, st)

/-- Model of `Orchestrator.plan`: run the Planning Stage (abstracted as
`planner`, a function of the request text; the file and context inputs
are folded into the oracle) and store the result wholesale as the
current plan. -/
def orch_plan (planner : Str → List (Str × Str)) (request : Str)
    (st : OrchState) : List (Str × Str) × OrchState :=
  let p := planner request
  (p, { st with current_plan := some p })

/-- Python truthiness of the current plan (`None` and the empty dict are
falsy). -/
def planTruthy : Option (List (Str × Str)) → Bool
  | none => false
  | some p => !p.isEmpty

/-- Result of `Orchestrator.handle_clarification`. -/
inductive ClarifyResult where
  | err (msg : Str)
  | planned (p : List (Str × Str))
deriving DecidableEq

/-- Model of `Orchestrator.handle_clarification`. -/
def handle_clarification (planner : Str → List (Str × Str)) (st : OrchState)
    (user_response : Str) : ClarifyResult × OrchState :=
  if planTruthy st.current_plan then
    let orig := (dictGet (st.current_plan.getD []) "understanding".toList).getD []
    let new_request := orig ++ "\n\nUser clarification: ".toList ++ user_response
    let r := orch_plan planner new_request st
    (.planned r.1, r.2)
  else (.err "No active plan".toList, st)

/-- One state-mutating orchestrator operation on a file: a Create/Edit
task execution (with its stage result) or an error fix (with its parsed
analysis). -/
inductive OrchOp where
  | exec (file : Str) (result : StageResult)
  | fix (file : Str) (current_content : Str) (analysis : ErrorAnalysis)
deriving DecidableEq

def applyOp (st : OrchState) : OrchOp → OrchState
  | .exec f res => execute_task_update f res st
  | .fix _ cc a => (handle_error st cc a).2

def runOps (st : OrchState) (ops : List OrchOp) : OrchState :=
  ops.foldl applyOp st

/-- The content written by the most recent successful task execution
touching `p` (an execution whose result carries success and a content
field for file `p`); `none` when no such execution exists. -/
def lastWrite : List OrchOp → Str → Option Str
  | [], _ => none
  | op :: rest, p =>
    match lastWrite rest p with
    | some c => some c
    | none =>
      match op with
      | .exec f res => if res.success = true ∧ f = p then res.content else none
      | .fix _ _ _ => none

/-- Concrete key pool used in the retry-budget evaluation: three fresh
keys. -/
def c1Keys : List APIKeyConfig := [⟨1, 0, 0, false, 0⟩, ⟨2, 0, 0, false, 0⟩, ⟨3, 0, 0, false, 0⟩]

/-- Concrete oracle script: two rate-limit failures, one generic
failure, then success. -/
def c1Oracle : Nat → CallResult
  | 0 => .fail "429 Too Many Requests".toList
  | 1 => .fail "429 Too Many Requests".toList
  | 2 => .fail "boom".toList
  | _ => .ok 99

/-- A key the scan loop may return at time `now`: not flagged, or
flagged with an already elapsed cooldown. -/
def keyUsable (now : ℚ) (kc : APIKeyConfig) : Prop :=
  kc.is_rate_limited = false ∨ kc.rate_limit_reset_time ≤ now

/-- A key that is rate-limited at time `now`: flagged, with a cooldown
still in the future. -/
def keyBlocked (now : ℚ) (kc : APIKeyConfig) : Prop :=
  kc.is_rate_limited = true ∧ now < kc.rate_limit_reset_time

instance (now : ℚ) (kc : APIKeyConfig) : Decidable (keyUsable now kc) := by
  unfold keyUsable
  infer_instance

instance (now : ℚ) (kc : APIKeyConfig) : Decidable (keyBlocked now kc) := by
  unfold keyBlocked
  infer_instance

/-! Helper lemmas. -/

theorem normCRLF_eq_self : ∀ s : Str, hasCRLF s = false → normCRLF s = s
  | [], _ => rfl
  | [_], _ => rfl
  | c1 :: c2 :: rest, h => by
    simp only [hasCRLF, Bool.or_eq_false_iff] at h
    obtain ⟨h1, h2⟩ := h
    simp only [normCRLF]
    rw [if_neg, normCRLF_eq_self (c2 :: rest) h2]
    intro hc
    obtain ⟨e1, e2⟩ := hc
    subst e1
    subst e2
    simp at h1

theorem foldl_diffStep_eq (cs : List Change) : ∀ (content : Str) (acc : List Change),
    cs.foldl diffStep (content, acc) =
      ((applyAllSpec content cs).1, acc ++ (applyAllSpec content cs).2) := by
  induction cs with
  | nil => intro content acc; simp [applyAllSpec]
  | cons c cs ih =>
    intro content acc
    simp only [List.foldl_cons, applyAllSpec, diffStep]
    by_cases h : (apply_diff content c.search c.replace).2 = true
    · simp only [h, if_true]
      exact ih _ _
    · simp only [Bool.not_eq_true] at h
      simp only [h, Bool.false_eq_true, if_false]
      rw [ih _ (acc ++ [c])]
      simp

theorem applyAllSpec_failed_sublist (cs : List Change) :
    ∀ content : Str, (applyAllSpec content cs).2.Sublist cs := by
  induction cs with
  | nil => intro content; simp [applyAllSpec]
  | cons c cs ih =>
    intro content
    simp only [applyAllSpec]
    by_cases h : (apply_diff content c.search c.replace).2 = true
    · simp only [h, if_true]
      exact (ih _).cons c
    · simp only [Bool.not_eq_true] at h
      simp only [h, Bool.false_eq_true, if_false]
      exact (ih content).cons₂ c

theorem apply_multiple_diffs_failed_sublist (o : Str) (cs : List Change) :
    (apply_multiple_diffs o cs).2.Sublist cs := by
  unfold apply_multiple_diffs
  rw [foldl_diffStep_eq cs o []]
  simpa using applyAllSpec_failed_sublist cs o

/-! Claim theorems. -/

/-- C9: with an empty original, applyOne returns exactly the replace
text with matched true; with a non-empty original and an empty search,
it returns exactly the replace text prepended to the unchanged original
with matched true. -/
theorem apply_diff_degenerate :
    (∀ s r : Str, apply_diff [] s r = (r, true)) ∧
    (∀ o r : Str, o ≠ [] → apply_diff o [] r = (r ++ o, true)) := by
  constructor
  · intro s r
    simp [apply_diff]
  · intro o r ho
    simp [apply_diff, ho]

/-- Witness for C9 at a concrete non-empty original. -/
theorem apply_diff_degenerate_witness :
    apply_diff ['a'] [] ['b'] = (['b', 'a'], true) :=
  apply_diff_degenerate.2 ['a'] ['b'] (by decide)

/-- C3: applyAll equals the sequential-threading reference (the result
of each successful change feeds the next; failed changes are collected
exactly when applyOne returned matched false at their turn), and the
failed list is a sublist of the input changes (the caller order is
preserved). -/
theorem apply_multiple_diffs_threads (o : Str) (cs : List Change) :
    apply_multiple_diffs o cs = applyAllSpec o cs ∧
    (apply_multiple_diffs o cs).2.Sublist cs := by
  constructor
  · unfold apply_multiple_diffs
    rw [foldl_diffStep_eq cs o []]
    simp
  · exact apply_multiple_diffs_failed_sublist o cs

/-- C6: the Edit Stage fails with the fixed error message on an empty
changes list; on a non-empty list it succeeds, and the applied and
failed counts sum to the number of supplied changes. -/
theorem update_file_result_contract :
    (∀ c : Str, update_file c [] =
      { success := false, error := some "No changes provided".toList,
        content := none, changes_applied := none, changes_failed := none }) ∧
    (∀ (c : Str) (changes : List Change), changes ≠ [] →
      (update_file c changes).success = true ∧
      (update_file c changes).changes_applied =
        some (changes.length - (apply_multiple_diffs c changes).2.length) ∧
      (update_file c changes).changes_failed =
        some (apply_multiple_diffs c changes).2.length ∧
      (changes.length - (apply_multiple_diffs c changes).2.length) +
        (apply_multiple_diffs c changes).2.length = changes.length) := by
  constructor
  · intro c
    simp [update_file]
  · intro c changes hne
    have hle : (apply_multiple_diffs c changes).2.length ≤ changes.length :=
      (apply_multiple_diffs_failed_sublist c changes).length_le
    refine ⟨by simp [update_file, hne], by simp [update_file, hne],
      by simp [update_file, hne], by omega⟩

/-- Witness for C6 at a concrete non-empty changes list. -/
theorem update_file_result_contract_witness :
    (update_file ['a', 'b'] [⟨['b'], ['c']⟩]).success = true :=
  (update_file_result_contract.2 ['a', 'b'] [⟨['b'], ['c']⟩] (by decide)).1

/-- C2 counterexample: the search text occurs verbatim exactly once in
the original, applyOne reports matched true, yet the result is not the
original with that occurrence replaced — the CRLF outside the matched
region was rewritten to LF. -/
theorem apply_diff_crlf_counterexample :
    countSubOcc ['X'] ('a' :: '\r' :: '\n' :: 'X' :: []) = 1 ∧
    apply_diff ('a' :: '\r' :: '\n' :: 'X' :: []) ['X'] ['Y'] ≠
      ('a' :: '\r' :: '\n' :: 'Y' :: [], true) := by
  decide

/-- C2 (amended): for non-empty original and search free of CRLF
sequences (and a CRLF-free replace), when the search occurs verbatim in
the original, applyOne returns matched true and the original with
exactly the first occurrence replaced, all bytes outside it unchanged;
with a unique occurrence this is that single occurrence. -/
theorem apply_diff_exact_replaces_first (o s r : Str) (i : Nat)
    (ho : o ≠ []) (hs : s ≠ [])
    (hno : hasCRLF o = false) (hns : hasCRLF s = false) (hnr : hasCRLF r = false)
    (hfind : firstMatchIdx s o = some i) :
    apply_diff o s r = (o.take i ++ r ++ o.drop (i + s.length), true) := by
  unfold apply_diff
  rw [if_neg ho, if_neg hs]
  simp only [normCRLF_eq_self o hno, normCRLF_eq_self s hns, normCRLF_eq_self r hnr,
    hfind]

/-- Witness for C2 at a concrete input with a unique occurrence. -/
theorem apply_diff_exact_replaces_first_witness :
    apply_diff ('a' :: 'x' :: 'b' :: []) ['x'] ['Y'] = (['a', 'Y', 'b'], true) :=
  apply_diff_exact_replaces_first ('a' :: 'x' :: 'b' :: []) ['x'] ['Y'] 1
    (by decide) (by decide) (by decide) (by decide) (by decide) (by decide)

/-- C8: the parser is total and bounded — for every decoder behaviour
and every input text it either yields a parsed value or the sentinel
carrying the fixed error message and a raw preview of at most 500
characters (the cleaned text truncated to 500). -/
theorem parse_json_total_contract {α : Type} (loads : Str → Option α) (text : Str) :
    (∃ v, parse_json loads text = .parsed v) ∨
    (parse_json loads text =
        .sentinel "Failed to parse JSON".toList ((cleanFences text).take 500) ∧
      ((cleanFences text).take 500).length ≤ 500) := by
  have hlen : ((cleanFences text).take 500).length ≤ 500 := by
    simp [List.length_take]
  cases h1 : loads (cleanFences text) with
  | some v => exact .inl ⟨v, by simp [parse_json, h1]⟩
  | none =>
    cases h2 : spanBrace (cleanFences text) with
    | none => exact .inr ⟨by simp [parse_json, h1, h2], hlen⟩
    | some span =>
      cases h3 : loads span with
      | some v => exact .inl ⟨v, by simp [parse_json, h1, h2, h3]⟩
      | none => exact .inr ⟨by simp [parse_json, h1, h2, h3], hlen⟩

/-- C1: evaluation of the retry loop on a pool of three fresh keys and
an oracle that rate-limits twice, then fails generically, then would
succeed.  The loop propagates the generic error after only three calls:
the two zero-cost key rotations consumed two of the three budgeted
attempts, so only one generic failure was tolerated even though the
claim entitles the execution to the full budget of three. -/
theorem generation_retry_budget_consumed_by_rotation :
    retryRaisedErr (execute_with_retry (fun _ => 60) c1Oracle ⟨⟨c1Keys, 0⟩, 0, 0⟩) =
      some (some "boom".toList) ∧
    retryCalls (execute_with_retry (fun _ => 60) c1Oracle ⟨⟨c1Keys, 0⟩, 0, 0⟩) = 3 ∧
    c1Oracle 3 = .ok 99 ∧
    (List.range 3).countP (fun n =>
        match c1Oracle n with
        | .fail e => !isRateLimitError e
        | .ok _ => false) = 1 ∧
    1 < max_retries := by
  decide

theorem dictGet_nil (q : Str) : dictGet [] q = none := rfl

theorem dictGet_cons (p : Str × Str) (d : List (Str × Str)) (q : Str) :
    dictGet (p :: d) q = if p.1 = q then some p.2 else dictGet d q := by
  by_cases h : p.1 = q <;> simp [dictGet, List.find?, h]

theorem dictGet_dictSet (d : List (Str × Str)) (k v q : Str) :
    dictGet (dictSet d k v) q = if q = k then some v else dictGet d q := by
  induction d with
  | nil =>
    show dictGet [(k, v)] q = _
    rw [dictGet_cons]
    by_cases hq : q = k
    · simp [hq]
    · have hk : ¬((k, v).1 = q) := fun h => hq h.symm
      simp [hq, hk, dictGet_nil]
  | cons p d ih =>
    by_cases hp : p.1 = k
    · have h1 : dictSet (p :: d) k v = (k, v) :: d := by simp [dictSet, hp]
      rw [h1, dictGet_cons, dictGet_cons]
      by_cases hq : q = k
      · simp [hq]
      · have hk : ¬((k, v).1 = q) := fun h => hq h.symm
        have hpq : ¬(p.1 = q) := fun h => hq (hp.symm.trans h).symm
        simp [hq, hk, hpq]
    · have h1 : dictSet (p :: d) k v = p :: dictSet d k v := by simp [dictSet, hp]
      rw [h1, dictGet_cons, dictGet_cons, ih]
      by_cases hpq : p.1 = q
      · have hq : ¬(q = k) := fun h => hp (hpq.trans h)
        simp [hpq, hq]
      · simp [hpq]

theorem handle_error_state_unchanged (st : OrchState) (cc : Str)
    (a : ErrorAnalysis) : (handle_error st cc a).2 = st := by
  unfold handle_error
  split <;> rfl

theorem execute_task_update_failure (f : Str) (res : StageResult)
    (st : OrchState) (h : res.success = false) :
    execute_task_update f res st = st := by
  simp [execute_task_update, h]

theorem runOps_recent_files (ops : List OrchOp) : ∀ (st : OrchState) (p : Str),
    dictGet (runOps st ops).recent_files p =
      (match lastWrite ops p with
       | some c => some c
       | none => dictGet st.recent_files p) := by
  induction ops with
  | nil =>
    intro st p
    rfl
  | cons op rest ih =>
    intro st p
    have hrun : runOps st (op :: rest) = runOps (applyOp st op) rest := rfl
    rw [hrun, ih]
    cases hl : lastWrite rest p with
    | some c => simp [lastWrite, hl]
    | none =>
      simp only [lastWrite, hl]
      cases op with
      | fix f cc a =>
        simp [applyOp, handle_error_state_unchanged]
      | exec f res =>
        cases hs : res.success with
        | false =>
          simp [applyOp, execute_task_update, hs]
        | true =>
          cases hc : res.content with
          | none =>
            cases hsum : res.summary <;>
              simp [applyOp, execute_task_update, hs, hc, hsum]
          | some c =>
            by_cases hfp : f = p
            · subst hfp
              cases hsum : res.summary <;>
                simp [applyOp, execute_task_update, hs, hc, hsum, dictGet_dictSet]
            · have hpf : ¬(p = f) := fun h => hfp h.symm
              cases hsum : res.summary <;>
                simp [applyOp, execute_task_update, hs, hc, hsum, dictGet_dictSet,
                  hfp, hpf]

/-- C7 counterexample: a successful error fix returns new content but
the orchestrator state — in particular the recent-files entry for the
touched path — is left at the value written by the earlier edit, so the
map does not reflect the most recent successful error-fix operation. -/
theorem handle_error_recent_files_counterexample :
    ((handle_error ⟨[], [(['f'], ['o'])], none⟩ ['n'] ⟨some "diff".toList, []⟩).1.success
        = true) ∧
    (handle_error ⟨[], [(['f'], ['o'])], none⟩ ['n'] ⟨some "diff".toList, []⟩).1.content
        = some ['n'] ∧
    (handle_error ⟨[], [(['f'], ['o'])], none⟩ ['n'] ⟨some "diff".toList, []⟩).2
        = ⟨[], [(['f'], ['o'])], none⟩ ∧
    dictGet (handle_error ⟨[], [(['f'], ['o'])], none⟩ ['n']
        ⟨some "diff".toList, []⟩).2.recent_files ['f'] = some ['o'] ∧
    (['o'] : Str) ≠ ['n'] := by
  decide

/-- C7 (amended): over every operation sequence, the recent-files entry
for a path equals the content of the most recent successful task
execution (Create/Edit) touching that path, falling back to the initial
map when none exists; a failed task execution leaves the state
unchanged; an error fix never changes the state (it does not update the
ledger or the recent-files map). -/
theorem orchestrator_recent_files_ledger :
    (∀ (ops : List OrchOp) (st : OrchState) (p : Str),
      dictGet (runOps st ops).recent_files p =
        (match lastWrite ops p with
         | some c => some c
         | none => dictGet st.recent_files p)) ∧
    (∀ (f : Str) (res : StageResult) (st : OrchState),
      res.success = false → execute_task_update f res st = st) ∧
    (∀ (st : OrchState) (cc : Str) (a : ErrorAnalysis),
      (handle_error st cc a).2 = st) :=
  ⟨runOps_recent_files, execute_task_update_failure, handle_error_state_unchanged⟩

/-- Witness for C7 at a concrete failed stage result. -/
theorem orchestrator_recent_files_ledger_witness :
    execute_task_update ['f'] ⟨false, none, none⟩ ⟨[], [], none⟩ = ⟨[], [], none⟩ :=
  orchestrator_recent_files_ledger.2.1 ['f'] ⟨false, none, none⟩ ⟨[], [], none⟩ rfl

/-- C10 counterexample: a current plan value exists (the state holds a
plan, here the empty dict) yet clarify returns the no-active-plan error
and does not re-plan or replace the plan — the guard tests Python
truthiness, not presence. -/
theorem handle_clarification_empty_plan_counterexample :
    handle_clarification (fun r => [("understanding".toList, r)])
        ⟨[], [], some []⟩ ['y'] =
      (.err "No active plan".toList, ⟨[], [], some []⟩) ∧
    (some ([] : List (Str × Str))).isSome = true := by
  constructor
  · rfl
  · rfl

/-- C10 (amended): when the current plan is absent — or present but
empty, hence falsy — clarify returns the no-active-plan error dict,
leaves the state unchanged, and never invokes the Planning Stage (the
outcome is independent of the planner); when a non-empty current plan
exists, it re-plans on the prior understanding concatenated with the
user reply and replaces the current plan wholesale with the new plan. -/
theorem handle_clarification_contract :
    (∀ (planner : Str → List (Str × Str)) (st : OrchState) (resp : Str),
      planTruthy st.current_plan = false →
      handle_clarification planner st resp = (.err "No active plan".toList, st)) ∧
    (∀ (p1 p2 : Str → List (Str × Str)) (st : OrchState) (resp : Str),
      planTruthy st.current_plan = false →
      handle_clarification p1 st resp = handle_clarification p2 st resp) ∧
    (∀ (planner : Str → List (Str × Str)) (st : OrchState) (resp : Str)
        (p : List (Str × Str)),
      st.current_plan = some p → p ≠ [] →
      handle_clarification planner st resp =
        (.planned (planner ((dictGet p "understanding".toList).getD [] ++
            "\n\nUser clarification: ".toList ++ resp)),
         { st with current_plan := some (planner
            ((dictGet p "understanding".toList).getD [] ++
              "\n\nUser clarification: ".toList ++ resp)) })) := by
  refine ⟨?_, ?_, ?_⟩
  · intro planner st resp h
    simp [handle_clarification, h]
  · intro p1 p2 st resp h
    simp [handle_clarification, h]
  · intro planner st resp p hp hne
    have ht : planTruthy (some p) = true := by
      simp [planTruthy, hne]
    simp [handle_clarification, hp, ht, orch_plan]

/-- Witness for C10: the error branch at an absent plan and the re-plan
branch at a concrete non-empty plan. -/
theorem handle_clarification_contract_witness :
    handle_clarification (fun r => [(['q'], r)]) ⟨[], [], none⟩ ['y'] =
      (.err "No active plan".toList, ⟨[], [], none⟩) ∧
    handle_clarification (fun r => [(['q'], r)])
        ⟨[], [], some [("understanding".toList, ['U'])]⟩ ['y'] =
      (.planned [(['q'], 'U' :: "\n\nUser clarification: ".toList ++ ['y'])],
       ⟨[], [], some [(['q'], 'U' :: "\n\nUser clarification: ".toList ++ ['y'])]⟩) := by
  constructor
  · exact handle_clarification_contract.1 (fun r => [(['q'], r)]) ⟨[], [], none⟩ ['y'] rfl
  · have h := handle_clarification_contract.2.2 (fun r => [(['q'], r)])
      ⟨[], [], some [("understanding".toList, ['U'])]⟩ ['y']
      [("understanding".toList, ['U'])] rfl (by decide)
    simpa using h

theorem splitNL_ne_nil : ∀ s : Str, splitNL s ≠ []
  | [] => by simp [splitNL]
  | c :: rest => by
    simp only [splitNL]
    split
    · simp
    · cases splitNL rest <;> simp

theorem countP_zip_self (xs : List Str) :
    ((xs.zip xs).countP fun p => decide (p.1 = p.2)) = xs.length := by
  induction xs with
  | nil => rfl
  | cons x xs ih => simp [List.zip_cons_cons, List.countP_cons, ih]

theorem windowScore_nonneg (ol sl : List Str) (i : Nat) :
    0 ≤ windowScore ol sl i := by
  unfold windowScore
  split
  · exact le_refl 0
  · positivity

theorem windowScore_le_one (ol sl : List Str) (i : Nat) :
    windowScore ol sl i ≤ 1 := by
  unfold windowScore
  split
  · exact zero_le_one
  · rename_i h
    rw [div_le_one (by positivity)]
    have h1 : ((((ol.drop i).take sl.length).map pyStrip).zip sl).countP
        (fun p => decide (p.1 = p.2)) ≤
        ((((ol.drop i).take sl.length).map pyStrip).zip sl).length :=
      List.countP_le_length _
    have h2 : ((((ol.drop i).take sl.length).map pyStrip).zip sl).length ≤ sl.length := by
      rw [List.length_zip]
      exact min_le_right _ _
    exact_mod_cast le_trans h1 h2

theorem windowScore_eval (ol sl : List Str) (i m : Nat)
    (hm : ((((ol.drop i).take sl.length).map pyStrip).zip sl).countP
        (fun p => decide (p.1 = p.2)) = m) :
    windowScore ol sl i =
      if sl.length = 0 then 0 else (m : ℚ) / (sl.length : ℚ) := by
  simp only [windowScore, hm]

theorem windowScore_region (ol sl : List Str) (i : Nat)
    (hne : sl ≠ [])
    (hwin : ((ol.drop i).take sl.length).map pyStrip = sl) :
    windowScore ol sl i = 1 := by
  have h0 : sl.length ≠ 0 := by simpa using hne
  rw [windowScore_eval ol sl i sl.length (by rw [hwin, countP_zip_self]), if_neg h0]
  exact div_self (by exact_mod_cast h0)

theorem foldl_bestStep_spec (ol sl : List Str) (l : List Nat) :
    ∀ init : Int × ℚ,
      (l.foldl (bestStep ol sl) init = init ∨
        ∃ i ∈ l, l.foldl (bestStep ol sl) init = ((i : Int), windowScore ol sl i)) ∧
      init.2 ≤ (l.foldl (bestStep ol sl) init).2 ∧
      ∀ i ∈ l, windowScore ol sl i ≤ (l.foldl (bestStep ol sl) init).2 := by
  induction l with
  | nil =>
    intro init
    exact ⟨Or.inl rfl, le_refl _, by simp⟩
  | cons j l ih =>
    intro init
    have hfold : (j :: l).foldl (bestStep ol sl) init =
        l.foldl (bestStep ol sl) (bestStep ol sl init j) := rfl
    obtain ⟨ihm, ihle, ihall⟩ := ih (bestStep ol sl init j)
    have hstep_le : init.2 ≤ (bestStep ol sl init j).2 := by
      unfold bestStep
      by_cases hc : init.2 < windowScore ol sl j
      · rw [if_pos hc]
        exact le_of_lt hc
      · rw [if_neg hc]
    have hstep_ge : windowScore ol sl j ≤ (bestStep ol sl init j).2 := by
      unfold bestStep
      by_cases hc : init.2 < windowScore ol sl j
      · rw [if_pos hc]
      · rw [if_neg hc]
        exact le_of_not_lt hc
    refine ⟨?_, ?_, ?_⟩
    · rcases ihm with h | ⟨i, hi, h⟩
      · by_cases hc : init.2 < windowScore ol sl j
        · right
          refine ⟨j, by simp, ?_⟩
          rw [hfold, h]
          simp [bestStep, hc]
        · left
          rw [hfold, h]
          simp [bestStep, hc]
      · right
        exact ⟨i, by simp [hi], by rw [hfold]; exact h⟩
    · rw [hfold]
      exact le_trans hstep_le ihle
    · intro i hi
      rcases List.mem_cons.mp hi with rfl | hmem
      · rw [hfold]
        exact le_trans hstep_ge ihle
      · rw [hfold]
        exact ihall i hmem

/-- C4 counterexample: the search block differs from the whole original
only by leading/trailing whitespace on each line (the middle lines are
whitespace-only) and has no exact occurrence, yet the fuzzy fallback
reports matched=false — blank search lines are dropped from the search
window, misaligning every window. -/
theorem apply_diff_fuzzy_blank_counterexample :
    ((splitNL ('a' :: '\n' :: '\t' :: '\n' :: 'b' :: [])).map pyStrip =
      (splitNL ('a' :: '\n' :: ' ' :: '\n' :: 'b' :: [])).map pyStrip) ∧
    firstMatchIdx ('a' :: '\n' :: '\t' :: '\n' :: 'b' :: [])
      ('a' :: '\n' :: ' ' :: '\n' :: 'b' :: []) = none ∧
    (apply_diff ('a' :: '\n' :: ' ' :: '\n' :: 'b' :: [])
      ('a' :: '\n' :: '\t' :: '\n' :: 'b' :: []) ['R']).2 = false := by
  refine ⟨by decide, by decide, ?_⟩
  have hol : splitNL (normCRLF ('a' :: '\n' :: ' ' :: '\n' :: 'b' :: [])) =
      [['a'], [' '], ['b']] := by decide
  have hsl : fuzzySearchLines (normCRLF ('a' :: '\n' :: '\t' :: '\n' :: 'b' :: [])) =
      [['a'], ['b']] := by decide
  have hs0 : windowScore [['a'], [' '], ['b']] [['a'], ['b']] 0 = (1 : ℚ) / 2 := by
    rw [windowScore_eval _ _ _ 1 (by decide)]
    norm_num
  have hs1 : windowScore [['a'], [' '], ['b']] [['a'], ['b']] 1 = (1 : ℚ) / 2 := by
    rw [windowScore_eval _ _ _ 1 (by decide)]
    norm_num
  have hb : bestWindow [['a'], [' '], ['b']] [['a'], ['b']] = (0, (1 : ℚ) / 2) := by
    have hr : List.range (Int.toNat ((3 : Int) - 2 + 1)) = [0, 1] := by decide
    simp only [bestWindow, List.length_cons, List.length_nil]
    rw [show ((((0 : Nat) + 1 + 1 + 1 : Nat) : Int) - (((0 : Nat) + 1 + 1 : Nat) : Int) + 1)
        = ((3 : Int) - 2 + 1) by norm_num, hr]
    simp only [List.foldl, bestStep, hs0, hs1]
    norm_num
  have hcond : ¬((4 : ℚ)/5 ≤ ((0 : Int), (1 : ℚ)/2).2 ∧ 0 ≤ ((0 : Int), (1 : ℚ)/2).1) := by
    intro h
    have := h.1
    norm_num at this
  simp only [apply_diff]
  rw [if_neg (by decide : ¬('a' :: '\n' :: ' ' :: '\n' :: 'b' :: [] : Str) = []),
    if_neg (by decide : ¬('a' :: '\n' :: '\t' :: '\n' :: 'b' :: [] : Str) = [])]
  rw [show firstMatchIdx (normCRLF ('a' :: '\n' :: '\t' :: '\n' :: 'b' :: []))
      (normCRLF ('a' :: '\n' :: ' ' :: '\n' :: 'b' :: [])) = none from by decide]
  rw [hol, hsl, hb]
  rw [if_neg hcond]

/-- C4 (amended): for CRLF-free texts, when every line of the search
block is non-blank, the search has no exact occurrence, and some
window of the original's lines agrees with the search's lines up to
per-line leading/trailing whitespace, the fuzzy fallback's best score is
exactly 1 (hence at least the 0.8 threshold), the chosen window start is
non-negative, and applyOne returns matched=true with the original lines
before the chosen window, then the replace text's lines (split on
newline, untrimmed), then the original lines after the window. -/
theorem apply_diff_fuzzy_whitespace (o s r : Str) (i : Nat)
    (ho : o ≠ []) (hs : s ≠ [])
    (hno : hasCRLF o = false) (hns : hasCRLF s = false) (hnr : hasCRLF r = false)
    (hblank : ∀ l ∈ splitNL s, pyStrip l ≠ [])
    (hexact : firstMatchIdx s o = none)
    (hiL : i + (splitNL s).length ≤ (splitNL o).length)
    (hwin : (((splitNL o).drop i).take ((splitNL s).length)).map pyStrip =
      (splitNL s).map pyStrip) :
    (bestWindow (splitNL o) (fuzzySearchLines s)).2 = 1 ∧
    0 ≤ (bestWindow (splitNL o) (fuzzySearchLines s)).1 ∧
    apply_diff o s r =
      (joinNL ((splitNL o).take (bestWindow (splitNL o) (fuzzySearchLines s)).1.toNat ++
        splitNL r ++
        (splitNL o).drop ((bestWindow (splitNL o) (fuzzySearchLines s)).1.toNat +
          (fuzzySearchLines s).length)), true) := by
  have hfsl : fuzzySearchLines s = (splitNL s).map pyStrip := by
    unfold fuzzySearchLines
    rw [List.filter_eq_self]
    intro l hl
    obtain ⟨l0, hl0, rfl⟩ := List.mem_map.mp hl
    have h := hblank l0 hl0
    simpa using h
  have hlen : (fuzzySearchLines s).length = (splitNL s).length := by
    rw [hfsl, List.length_map]
  have hne_sl : fuzzySearchLines s ≠ [] := by
    rw [hfsl]
    intro h
    exact splitNL_ne_nil s (List.map_eq_nil_iff.mp h)
  have hwin' : (((splitNL o).drop i).take ((fuzzySearchLines s).length)).map pyStrip =
      fuzzySearchLines s := by
    rw [hlen]
    rw [hwin, hfsl]
  have hscore : windowScore (splitNL o) (fuzzySearchLines s) i = 1 :=
    windowScore_region _ _ _ hne_sl hwin'
  have hmem : i ∈ List.range (Int.toNat
      (((splitNL o).length : Int) - ((fuzzySearchLines s).length : Int) + 1)) := by
    rw [List.mem_range]
    have h1 : i + (fuzzySearchLines s).length ≤ (splitNL o).length := by
      rw [hlen]
      exact hiL
    omega
  have hbw : bestWindow (splitNL o) (fuzzySearchLines s) =
      (List.range (Int.toNat
        (((splitNL o).length : Int) - ((fuzzySearchLines s).length : Int) + 1))).foldl
        (bestStep (splitNL o) (fuzzySearchLines s)) (-1, 0) := rfl
  obtain ⟨hm, _hle, hall⟩ := foldl_bestStep_spec (splitNL o) (fuzzySearchLines s)
      (List.range (Int.toNat
        (((splitNL o).length : Int) - ((fuzzySearchLines s).length : Int) + 1))) (-1, 0)
  have hge : (1 : ℚ) ≤ (bestWindow (splitNL o) (fuzzySearchLines s)).2 := by
    rw [hbw]
    have h := hall i hmem
    rw [hscore] at h
    exact h
  have hle1 : (bestWindow (splitNL o) (fuzzySearchLines s)).2 ≤ 1 := by
    rw [hbw]
    rcases hm with h | ⟨j, _hj, h⟩
    · rw [h]
      norm_num
    · rw [h]
      exact windowScore_le_one _ _ _
  have hsc : (bestWindow (splitNL o) (fuzzySearchLines s)).2 = 1 :=
    le_antisymm hle1 hge
  have hpos : 0 ≤ (bestWindow (splitNL o) (fuzzySearchLines s)).1 := by
    rcases hm with h | ⟨j, _hj, h⟩
    · exfalso
      rw [hbw, h] at hsc
      norm_num at hsc
    · rw [hbw, h]
      exact Int.natCast_nonneg j
  refine ⟨hsc, hpos, ?_⟩
  simp only [apply_diff]
  rw [if_neg ho, if_neg hs]
  rw [normCRLF_eq_self o hno, normCRLF_eq_self s hns, normCRLF_eq_self r hnr, hexact]
  rw [if_pos ⟨by rw [hsc]; norm_num, hpos⟩]

/-- Witness for C4 at a concrete whitespace-perturbed search block. -/
theorem apply_diff_fuzzy_whitespace_witness :
    (bestWindow (splitNL ('a' :: 'x' :: '\n' :: 'b' :: 'y' :: []))
      (fuzzySearchLines (' ' :: 'a' :: 'x' :: ' ' :: '\n' :: ' ' :: 'b' :: 'y' :: ' ' :: []))).2 = 1 ∧
    0 ≤ (bestWindow (splitNL ('a' :: 'x' :: '\n' :: 'b' :: 'y' :: []))
      (fuzzySearchLines (' ' :: 'a' :: 'x' :: ' ' :: '\n' :: ' ' :: 'b' :: 'y' :: ' ' :: []))).1 ∧
    apply_diff ('a' :: 'x' :: '\n' :: 'b' :: 'y' :: [])
        (' ' :: 'a' :: 'x' :: ' ' :: '\n' :: ' ' :: 'b' :: 'y' :: ' ' :: []) ['R'] =
      (joinNL ((splitNL ('a' :: 'x' :: '\n' :: 'b' :: 'y' :: [])).take
          (bestWindow (splitNL ('a' :: 'x' :: '\n' :: 'b' :: 'y' :: []))
            (fuzzySearchLines (' ' :: 'a' :: 'x' :: ' ' :: '\n' :: ' ' :: 'b' :: 'y' :: ' ' :: []))).1.toNat ++
        splitNL ['R'] ++
        (splitNL ('a' :: 'x' :: '\n' :: 'b' :: 'y' :: [])).drop
          ((bestWindow (splitNL ('a' :: 'x' :: '\n' :: 'b' :: 'y' :: []))
            (fuzzySearchLines (' ' :: 'a' :: 'x' :: ' ' :: '\n' :: ' ' :: 'b' :: 'y' :: ' ' :: []))).1.toNat +
          (fuzzySearchLines (' ' :: 'a' :: 'x' :: ' ' :: '\n' :: ' ' :: 'b' :: 'y' :: ' ' :: [])).length)), true) :=
  apply_diff_fuzzy_whitespace ('a' :: 'x' :: '\n' :: 'b' :: 'y' :: [])
    (' ' :: 'a' :: 'x' :: ' ' :: '\n' :: ' ' :: 'b' :: 'y' :: ' ' :: []) ['R'] 0
    (by decide) (by decide) (by decide) (by decide) (by decide) (by decide)
    (by decide) (by decide) (by decide)

theorem keyBlocked_not_usable {now : ℚ} {kc : APIKeyConfig}
    (h : keyBlocked now kc) : ¬keyUsable now kc := by
  rintro (h1 | h2)
  · rw [h.1] at h1
    cases h1
  · exact absurd h2 (not_le.mpr h.2)

theorem getKeyLoop_some_spec (now : ℚ) :
    ∀ (fuel : Nat) (keys : List APIKeyConfig) (idx ky : Nat)
      (keys' : List APIKeyConfig) (idx' : Nat),
      idx < keys.length →
      getKeyLoop now fuel keys idx = some (ky, keys', idx') →
      idx' < keys.length ∧ ky = (keys.getD idx' dfltKey).key ∧
        keyUsable now (keys.getD idx' dfltKey) ∧
        (keys' = keys ∨ keys' = keys.set idx'
          { keys.getD idx' dfltKey with is_rate_limited := false }) := by
  intro fuel
  induction fuel with
  | zero =>
    intro keys idx ky keys' idx' _ h
    simp [getKeyLoop] at h
  | succ fuel ih =>
    intro keys idx ky keys' idx' hidx h
    simp only [getKeyLoop] at h
    by_cases hlim : (keys.getD idx dfltKey).is_rate_limited = true
    · by_cases hexp : (keys.getD idx dfltKey).rate_limit_reset_time ≤ now
      · rw [if_pos hlim, if_pos hexp] at h
        simp only [Option.some.injEq, Prod.mk.injEq] at h
        obtain ⟨h1, h2, h3⟩ := h
        subst h3
        exact ⟨hidx, h1.symm, Or.inr hexp, Or.inr h2.symm⟩
      · rw [if_pos hlim, if_neg hexp] at h
        exact ih keys ((idx + 1) % keys.length) ky keys' idx'
          (Nat.mod_lt _ (by omega)) h
    · rw [if_neg hlim] at h
      simp only [Option.some.injEq, Prod.mk.injEq] at h
      obtain ⟨h1, h2, h3⟩ := h
      subst h3
      exact ⟨hidx, h1.symm, Or.inl (Bool.not_eq_true _ ▸ hlim), Or.inl h2.symm⟩

theorem getKeyLoop_none_of_allBlocked (now : ℚ) :
    ∀ (fuel : Nat) (keys : List APIKeyConfig) (idx : Nat),
      (∀ j, j < keys.length → keyBlocked now (keys.getD j dfltKey)) →
      idx < keys.length →
      getKeyLoop now fuel keys idx = none := by
  intro fuel
  induction fuel with
  | zero =>
    intro keys idx _ _
    rfl
  | succ fuel ih =>
    intro keys idx hall hidx
    have hb := hall idx hidx
    simp only [getKeyLoop]
    rw [if_pos hb.1, if_neg (not_le.mpr hb.2)]
    exact ih keys _ hall (Nat.mod_lt _ (by omega))

theorem getKeyLoop_none_spec (now : ℚ) :
    ∀ (fuel : Nat) (keys : List APIKeyConfig) (idx : Nat),
      idx < keys.length →
      getKeyLoop now fuel keys idx = none →
      ∀ t, t < fuel → keyBlocked now (keys.getD ((idx + t) % keys.length) dfltKey) := by
  intro fuel
  induction fuel with
  | zero =>
    intro keys idx _ _ t ht
    exact absurd ht (Nat.not_lt_zero t)
  | succ fuel ih =>
    intro keys idx hidx h t ht
    simp only [getKeyLoop] at h
    by_cases hlim : (keys.getD idx dfltKey).is_rate_limited = true
    · by_cases hexp : (keys.getD idx dfltKey).rate_limit_reset_time ≤ now
      · rw [if_pos hlim, if_pos hexp] at h
        cases h
      · rw [if_pos hlim, if_neg hexp] at h
        cases t with
        | zero =>
          rw [Nat.add_zero, Nat.mod_eq_of_lt hidx]
          exact ⟨hlim, not_le.mp hexp⟩
        | succ t =>
          have h2 := ih keys ((idx + 1) % keys.length)
            (Nat.mod_lt _ (by omega)) h t (by omega)
          have he : (((idx + 1) % keys.length) + t) % keys.length =
              (idx + (t + 1)) % keys.length := by
            rw [Nat.mod_add_mod]
            congr 1
            omega
          rw [he] at h2
          exact h2
    · rw [if_neg hlim] at h
      cases h

theorem allBlocked_of_getKeyLoop_none (now : ℚ) (keys : List APIKeyConfig)
    (idx : Nat) (hidx : idx < keys.length)
    (h : getKeyLoop now keys.length keys idx = none) :
    ∀ j, j < keys.length → keyBlocked now (keys.getD j dfltKey) := by
  intro j hj
  rcases le_or_lt idx j with hle | hlt
  · have h2 := getKeyLoop_none_spec now keys.length keys idx hidx h (j - idx) (by omega)
    rw [show idx + (j - idx) = j by omega, Nat.mod_eq_of_lt hj] at h2
    exact h2
  · have h2 := getKeyLoop_none_spec now keys.length keys idx hidx h
      (j + keys.length - idx) (by omega)
    rw [show idx + (j + keys.length - idx) = j + keys.length by omega,
      Nat.add_mod_right, Nat.mod_eq_of_lt hj] at h2
    exact h2

theorem getKeyLoop_reaches (now : ℚ) (keys : List APIKeyConfig) (k : Nat)
    (hk : k < keys.length)
    (hothers : ∀ j, j < keys.length → j ≠ k → keyBlocked now (keys.getD j dfltKey))
    (husable : keyUsable now (keys.getD k dfltKey)) :
    ∀ (fuel idx : Nat), idx < keys.length →
      (if idx ≤ k then k - idx else k + keys.length - idx) < fuel →
      ∃ keys', getKeyLoop now fuel keys idx =
        some ((keys.getD k dfltKey).key, keys', k) := by
  intro fuel
  induction fuel with
  | zero =>
    intro idx _ hd
    exact absurd hd (Nat.not_lt_zero _)
  | succ fuel ih =>
    intro idx hidx hd
    by_cases hik : idx = k
    · subst hik
      by_cases hl : (keys.getD idx dfltKey).is_rate_limited = true
      · have hexp : (keys.getD idx dfltKey).rate_limit_reset_time ≤ now := by
          rcases husable with h1 | h2
          · rw [hl] at h1
            cases h1
          · exact h2
        refine ⟨keys.set idx { keys.getD idx dfltKey with is_rate_limited := false }, ?_⟩
        simp only [getKeyLoop]
        rw [if_pos hl, if_pos hexp]
      · refine ⟨keys, ?_⟩
        simp only [getKeyLoop]
        rw [if_neg hl]
    · have hb := hothers idx hidx hik
      have hstep : getKeyLoop now (fuel + 1) keys idx =
          getKeyLoop now fuel keys ((idx + 1) % keys.length) := by
        simp only [getKeyLoop]
        rw [if_pos hb.1, if_neg (not_le.mpr hb.2)]
      rw [hstep]
      apply ih ((idx + 1) % keys.length) (Nat.mod_lt _ (by omega))
      rcases Nat.lt_or_ge (idx + 1) keys.length with hlt | hge
      · rw [Nat.mod_eq_of_lt hlt]
        split at hd <;> split <;> omega
      · have hidx1 : idx + 1 = keys.length := by omega
        rw [hidx1, Nat.mod_self]
        split at hd <;> split <;> omega

theorem minReset_le : ∀ (keys : List APIKeyConfig) (j : Nat), j < keys.length →
    minReset keys ≤ (keys.getD j dfltKey).rate_limit_reset_time
  | [], j, h => absurd h (by simp)
  | [_], 0, _ => le_refl _
  | [_], _+1, h => absurd h (by simp)
  | _ :: _ :: _, 0, _ => min_le_left _ _
  | k :: k2 :: rest, j+1, h => by
    have h2 := minReset_le (k2 :: rest) j (by simpa using h)
    rw [List.getD_cons_succ]
    exact le_trans (min_le_right _ _) h2

theorem exists_minReset : ∀ keys : List APIKeyConfig, keys ≠ [] →
    ∃ j, j < keys.length ∧
      (keys.getD j dfltKey).rate_limit_reset_time = minReset keys
  | [], h => absurd rfl h
  | [_], _ => ⟨0, by simp, rfl⟩
  | k :: k2 :: rest, _ => by
    obtain ⟨j, hj, he⟩ := exists_minReset (k2 :: rest) (by simp)
    rcases le_total k.rate_limit_reset_time (minReset (k2 :: rest)) with hle | hge
    · refine ⟨0, by simp, ?_⟩
      rw [List.getD_cons_zero]
      exact (min_eq_left hle).symm
    · refine ⟨j + 1, by simpa using hj, ?_⟩
      rw [List.getD_cons_succ, he]
      exact (min_eq_right hge).symm

theorem soonestIdx_spec (keys : List APIKeyConfig) (hne : keys ≠ []) :
    soonestIdx keys < keys.length ∧
    (keys.getD (soonestIdx keys) dfltKey).rate_limit_reset_time = minReset keys := by
  obtain ⟨j, hj, he⟩ := exists_minReset keys hne
  have hex : ∃ x ∈ keys, decide (x.rate_limit_reset_time = minReset keys) = true := by
    refine ⟨keys.getD j dfltKey, ?_, by simpa using he⟩
    rw [List.getD_eq_getElem?_getD, List.getElem?_eq_getElem hj]
    exact List.getElem_mem _
  have hlt : keys.findIdx (fun k => decide (k.rate_limit_reset_time = minReset keys))
      < keys.length :=
    List.findIdx_lt_length_of_exists hex
  have hlt2 : soonestIdx keys < keys.length := hlt
  refine ⟨hlt2, ?_⟩
  have hp := @List.findIdx_getElem _
    (fun k => decide (k.rate_limit_reset_time = minReset keys)) keys hlt
  rw [List.getD_eq_getElem?_getD, List.getElem?_eq_getElem hlt2]
  simpa [soonestIdx] using hp

theorem nodup_key_inj (keys : List APIKeyConfig)
    (hnodup : (keys.map (fun kc => kc.key)).Nodup)
    (i j : Nat) (hi : i < keys.length) (hj : j < keys.length)
    (h : (keys.getD i dfltKey).key = (keys.getD j dfltKey).key) : i = j := by
  rw [List.getD_eq_getElem?_getD, List.getElem?_eq_getElem hi, Option.getD_some] at h
  rw [List.getD_eq_getElem?_getD, List.getElem?_eq_getElem hj, Option.getD_some] at h
  have hi' : i < (keys.map (fun kc => kc.key)).length := by
    rw [List.length_map]
    exact hi
  have hj' : j < (keys.map (fun kc => kc.key)).length := by
    rw [List.length_map]
    exact hj
  have h2 : (keys.map (fun kc => kc.key))[i] =
      (keys.map (fun kc => kc.key))[j] := by
    simpa [List.getElem_map] using h
  exact (List.Nodup.getElem_inj_iff hnodup).mp h2

/-- C5: Key Pool cooldown.  First, marking the key under cursor k flags
it with reset time t0 + s and advances the cursor.  Second, while the
cooldown has not elapsed, any get-current-key call preserves the
flagged record of k, so the cooldown persists across calls.  Third,
while k is flagged and unexpired, a call returns a credential other
than k whenever some other key is usable (key ids distinct).  Fourth,
when every key is flagged and unexpired, the call returns the key with
the soonest reset time.  Fifth, once the cooldown of k has elapsed
(every other key still blocked), the call returns k again — k is
re-armed and selectable. -/
theorem key_pool_cooldown :
    (∀ (st : RateLimiterState) (t0 s : ℚ),
      st.current_key_index < st.api_keys.length →
      ((mark_rate_limited t0 s st).api_keys.getD st.current_key_index
          dfltKey).is_rate_limited = true ∧
      ((mark_rate_limited t0 s st).api_keys.getD st.current_key_index
          dfltKey).rate_limit_reset_time = t0 + s ∧
      (mark_rate_limited t0 s st).api_keys.length = st.api_keys.length ∧
      (mark_rate_limited t0 s st).current_key_index =
        (st.current_key_index + 1) % st.api_keys.length) ∧
    (∀ (keys keys' : List APIKeyConfig) (cursor cursor' k ky : Nat) (now : ℚ),
      cursor < keys.length → k < keys.length →
      keyBlocked now (keys.getD k dfltKey) →
      get_current_key now ⟨keys, cursor⟩ = some (ky, ⟨keys', cursor'⟩) →
      keys'.getD k dfltKey = keys.getD k dfltKey ∧
        keys'.length = keys.length ∧ cursor' < keys.length) ∧
    (∀ (keys : List APIKeyConfig) (cursor k j ky : Nat) (now : ℚ)
        (st' : RateLimiterState),
      cursor < keys.length → k < keys.length → j < keys.length → j ≠ k →
      (keys.map (fun kc => kc.key)).Nodup →
      keyBlocked now (keys.getD k dfltKey) →
      keyUsable now (keys.getD j dfltKey) →
      get_current_key now ⟨keys, cursor⟩ = some (ky, st') →
      ky ≠ (keys.getD k dfltKey).key) ∧
    (∀ (keys : List APIKeyConfig) (cursor : Nat) (now : ℚ),
      cursor < keys.length →
      (∀ j, j < keys.length → keyBlocked now (keys.getD j dfltKey)) →
      get_current_key now ⟨keys, cursor⟩ =
        some ((keys.getD (soonestIdx keys) dfltKey).key, ⟨keys, soonestIdx keys⟩) ∧
      ∀ j, j < keys.length →
        (keys.getD (soonestIdx keys) dfltKey).rate_limit_reset_time ≤
          (keys.getD j dfltKey).rate_limit_reset_time) ∧
    (∀ (keys : List APIKeyConfig) (cursor k : Nat) (now : ℚ),
      cursor < keys.length → k < keys.length →
      (∀ j, j < keys.length → j ≠ k → keyBlocked now (keys.getD j dfltKey)) →
      keyUsable now (keys.getD k dfltKey) →
      ∃ keys', get_current_key now ⟨keys, cursor⟩ =
        some ((keys.getD k dfltKey).key, ⟨keys', k⟩)) := by
  refine ⟨?_, ?_, ?_, ?_, ?_⟩
  · -- mark flags the key and advances the cursor
    intro st t0 s hidx
    have hset : (st.api_keys.set st.current_key_index
        { st.api_keys.getD st.current_key_index dfltKey with
            is_rate_limited := true,
            rate_limit_reset_time := t0 + s }).getD st.current_key_index dfltKey =
        { st.api_keys.getD st.current_key_index dfltKey with
            is_rate_limited := true, rate_limit_reset_time := t0 + s } := by
      rw [List.getD_eq_getElem?_getD, List.getElem?_set_self hidx, Option.getD_some]
    refine ⟨?_, ?_, ?_, ?_⟩
    · show ((st.api_keys.set _ _).getD _ dfltKey).is_rate_limited = true
      rw [hset]
    · show ((st.api_keys.set _ _).getD _ dfltKey).rate_limit_reset_time = t0 + s
      rw [hset]
    · exact List.length_set st.api_keys _ _
    · rfl
  · -- a call before the reset preserves the blocked record of k
    intro keys keys' cursor cursor' k ky now hc hk hb hget
    have hne : keys ≠ [] := by
      intro h
      subst h
      simp at hc
    unfold get_current_key at hget
    rw [if_neg hne] at hget
    cases hloop : getKeyLoop now keys.length keys cursor with
    | some v =>
      obtain ⟨ky0, keys0, idx0⟩ := v
      rw [hloop] at hget
      simp only [Option.some.injEq, Prod.mk.injEq, RateLimiterState.mk.injEq] at hget
      obtain ⟨hky, hkeys, hcur⟩ := hget
      obtain ⟨hidx0, _, husable, hor⟩ :=
        getKeyLoop_some_spec now keys.length keys cursor ky0 keys0 idx0 hc hloop
      rw [← hkeys, ← hcur]
      rcases hor with rfl | rfl
      · exact ⟨rfl, rfl, hidx0⟩
      · have hik : idx0 ≠ k := by
          intro h
          subst h
          exact keyBlocked_not_usable hb husable
        refine ⟨?_, List.length_set _ _ _, hidx0⟩
        rw [List.getD_eq_getElem?_getD, List.getElem?_set_ne hik,
          ← List.getD_eq_getElem?_getD]
    | none =>
      rw [hloop] at hget
      simp only [Option.some.injEq, Prod.mk.injEq, RateLimiterState.mk.injEq] at hget
      obtain ⟨hky, hkeys, hcur⟩ := hget
      rw [← hkeys, ← hcur]
      exact ⟨rfl, rfl, (soonestIdx_spec keys hne).1⟩
  · -- while k is blocked, a usable other key means k is not returned
    intro keys cursor k j ky now st' hc hk hj hjk hnodup hb hu hget
    have hne : keys ≠ [] := by
      intro h
      subst h
      simp at hc
    unfold get_current_key at hget
    rw [if_neg hne] at hget
    cases hloop : getKeyLoop now keys.length keys cursor with
    | none =>
      exfalso
      have hall := allBlocked_of_getKeyLoop_none now keys cursor hc hloop
      exact keyBlocked_not_usable (hall j hj) hu
    | some v =>
      obtain ⟨ky0, keys0, idx0⟩ := v
      rw [hloop] at hget
      simp only [Option.some.injEq, Prod.mk.injEq] at hget
      obtain ⟨hky, _⟩ := hget
      subst hky
      obtain ⟨hidx0, hkey0, husable, _⟩ :=
        getKeyLoop_some_spec now keys.length keys cursor ky0 keys0 idx0 hc hloop
      intro heq
      have hik : idx0 = k :=
        nodup_key_inj keys hnodup idx0 k hidx0 hk (by rw [← hkey0, heq])
      subst hik
      exact keyBlocked_not_usable hb husable
  · -- all blocked: the soonest-reset key is returned
    intro keys cursor now hc hall
    have hne : keys ≠ [] := by
      intro h
      subst h
      simp at hc
    have hloop := getKeyLoop_none_of_allBlocked now keys.length keys cursor hall hc
    constructor
    · unfold get_current_key
      rw [if_neg hne, hloop]
    · intro j hj
      rw [(soonestIdx_spec keys hne).2]
      exact minReset_le keys j hj
  · -- cooldown elapsed: k is selectable again
    intro keys cursor k now hc hk hothers hu
    have hne : keys ≠ [] := by
      intro h
      subst h
      simp at hc
    have hd : (if cursor ≤ k then k - cursor else k + keys.length - cursor)
        < keys.length := by
      split <;> omega
    obtain ⟨keys', hloop⟩ :=
      getKeyLoop_reaches now keys k hk hothers hu keys.length cursor hc hd
    refine ⟨keys', ?_⟩
    unfold get_current_key
    rw [if_neg hne, hloop]

/-- Witness for C5: with key 0 rate-limited until time 10 and key 1
fresh, a call at time 5 does not return key 0's credential. -/
theorem key_pool_cooldown_witness :
    (2 : Nat) ≠
      (([⟨1, 0, 0, true, 10⟩, ⟨2, 0, 0, false, 0⟩] : List APIKeyConfig).getD 0
        dfltKey).key :=
  key_pool_cooldown.2.2.1 [⟨1, 0, 0, true, 10⟩, ⟨2, 0, 0, false, 0⟩] 0 0 1 2 5
    ⟨[⟨1, 0, 0, true, 10⟩, ⟨2, 0, 0, false, 0⟩], 1⟩
    (by decide) (by decide) (by decide) (by decide) (by decide) (by decide)
    (by decide) (by decide)
